import Mathlib

/-!
# Verification of the tiny-islands rule engine (`src/game.py`)

A shallow embedding of the turn state machine, border/island resolver and
scoring engine of `game.py`, together with theorems settling the frozen
claims about that code.

Conventions of the embedding:
* grid positions are integer pairs `(x, y)` (Python tuples), modeled as `Int × Int`;
* Python lists become `List`, Python `set`s become `Finset`;
* `make_turn`'s `raise ValueError` becomes `Except String SaveState`;
* turn numbers are modeled as naturals (game states are created with
  `current_turn = 1` and only ever incremented);
* the recursive depth-first search of `_dfs_forest` is modeled as the
  iterated monotone closure of the forest-adjacency successor map, which
  computes the same set of cells (the forest tiles reachable from the start
  through chains of adjacent forest tiles).
-/

set_option maxRecDepth 8000

/-- A grid position `(x, y)` — `x` is the column, `y` the row (Python tuple of ints). -/
abbrev Pos := Int × Int

/-- Lexicographic comparison of positions: Python's `sorted` on tuples of ints. -/
def posLe (a b : Pos) : Prop := a.1 < b.1 ∨ (a.1 = b.1 ∧ a.2 ≤ b.2)

instance : DecidableRel posLe := by
  intro a b
  unfold posLe
  infer_instance

instance : IsTrans Pos posLe := by
  constructor
  intro a b c hab hbc
  rcases hab with h | ⟨h1, h2⟩ <;> rcases hbc with h' | ⟨h1', h2'⟩ <;> unfold posLe <;> omega

instance : IsAntisymm Pos posLe := by
  constructor
  intro a b hab hba
  rcases a with ⟨ax, ay⟩
  rcases b with ⟨bx, b_y⟩
  rcases hab with h | ⟨h1, h2⟩ <;> rcases hba with h' | ⟨h1', h2'⟩ <;>
    simp_all <;> omega

instance : IsTotal Pos posLe := by
  constructor
  intro a b
  unfold posLe
  omega

/-- Manhattan distance `abs(x1-x2) + abs(y1-y2)`. -/
def manhattan (a b : Pos) : Int := |a.1 - b.1| + |a.2 - b.2|

/-- `Choice` dataclass: a tile offer. -/
structure Choice where
  tile_type : String
  chunk_type : String
  chunk_position : Int
deriving DecidableEq

/-- `PlacedTile` dataclass: a tile bound to a board position. -/
structure PlacedTile where
  choice : Choice
  tile_position : Pos
deriving DecidableEq

/-- `BorderLine` dataclass: one unit border segment between two grid vertices. -/
structure BorderLine where
  start_pos : Pos
  end_pos : Pos
  is_horizontal : Bool
deriving DecidableEq

/-- `Island` dataclass: border lines, enclosed cells (a Python `set`) and lake flag. -/
structure Island where
  border_lines : List BorderLine
  enclosed_positions : Finset Pos
  is_lake : Bool
deriving DecidableEq

/-- `TurnHistory` dataclass: audit record of one turn. -/
structure TurnHistory where
  chosen_tile : PlacedTile
  discarded_tile : PlacedTile
  border_lines : List BorderLine
deriving DecidableEq

/-- `SaveState` dataclass: the whole game state snapshot. -/
structure SaveState where
  current_turn : Nat
  choice_history : List TurnHistory
  game_id : String
  created_at : String
  placed_tiles : List PlacedTile
  border_lines : List BorderLine
  islands : List Island
deriving DecidableEq

/-- `MAX_BORDER_LINES = 24`. -/
def MAX_BORDER_LINES : Nat := 24

/-- `GRID_SIZE = 9`. -/
def GRID_SIZE : Int := 9

/-- `TURN_ACTIONS`, copied literally from `game.py` (the third row of the
source has eight `'choice'` entries before its `'border'`). -/
def TURN_ACTIONS : List String :=
  ["choice", "choice", "choice", "choice", "choice", "choice", "choice", "choice", "choice", "border",
   "choice", "choice", "choice", "choice", "choice", "choice", "choice", "choice", "choice", "border",
   "choice", "choice", "choice", "choice", "choice", "choice", "choice", "choice", "border"]

/-- Whether a position lies on the 9×9 grid (`0 <= x < GRID_SIZE` for both coordinates). -/
def onGrid (p : Pos) : Prop := 0 ≤ p.1 ∧ p.1 < GRID_SIZE ∧ 0 ≤ p.2 ∧ p.2 < GRID_SIZE

instance : DecidablePred onGrid := by
  intro p
  unfold onGrid
  infer_instance

/-- `GameRunner._get_adjacent_positions`: the 4 orthogonal neighbours clipped to the grid. -/
def get_adjacent_positions (p : Pos) : List Pos :=
  ([(-1, 0), (1, 0), (0, -1), (0, 1)] : List Pos).filterMap fun d =>
    let q : Pos := (p.1 + d.1, p.2 + d.2)
    if onGrid q then some q else none

/-- `GameRunner._get_nearby_positions`: the 8 surrounding positions clipped to the grid
(iteration order `dx` outer, `dy` inner, as in the source). -/
def get_nearby_positions (p : Pos) : List Pos :=
  ([(-1, -1), (-1, 0), (-1, 1), (0, -1), (0, 1), (1, -1), (1, 0), (1, 1)] : List Pos).filterMap fun d =>
    let q : Pos := (p.1 + d.1, p.2 + d.2)
    if onGrid q then some q else none

/-- All grid cells in the iteration order of `for y in range(GRID_SIZE): for x in range(GRID_SIZE)`. -/
def allGridCells : List Pos :=
  (List.range 9).flatMap fun y => (List.range 9).map fun x => (Int.ofNat x, Int.ofNat y)

/-- `GameRunner._get_tile_at_position`: first placed tile at a position, if any. -/
def get_tile_at_position (p : Pos) (s : SaveState) : Option PlacedTile :=
  s.placed_tiles.find? fun t => t.tile_position = p

/-- `GameRunner._is_on_island`: whether a position is in some island's enclosed cells. -/
def is_on_island (p : Pos) (s : SaveState) : Bool :=
  s.islands.any fun i => p ∈ i.enclosed_positions

/-- `GameRunner._is_on_same_island`: whether one island encloses both positions. -/
def is_on_same_island (p q : Pos) (s : SaveState) : Bool :=
  s.islands.any fun i => p ∈ i.enclosed_positions ∧ q ∈ i.enclosed_positions

/-- `GameRunner.decide_end`: the game has ended iff `current_turn > len(TURN_ACTIONS)`. -/
def decide_end (s : SaveState) : Bool :=
  s.current_turn > TURN_ACTIONS.length

/-- Minimum of a list of ints: `min` folded over the loop, `none` when no
candidate was seen (Python's `float('inf')` sentinel). -/
def listMin : List Int → Option Int
  | [] => none
  | h :: t => some (t.foldl min h)

/-- `GameRunner._calculate_ship_points`: 0 on an island, else the minimum
Manhattan distance to another ship or to any island cell (placed tiles that
are ships or on islands, plus empty grid cells on islands); 0 when no
reference point exists. -/
def calculate_ship_points (p : Pos) (s : SaveState) : Int :=
  if is_on_island p s then 0
  else
    let ds1 : List Int := s.placed_tiles.filterMap fun t =>
      if t.tile_position = p then none
      else if t.choice.tile_type = "ships" ∨ is_on_island t.tile_position s then
        some (manhattan p t.tile_position)
      else none
    let ds2 : List Int := allGridCells.filterMap fun c =>
      if c = p then none
      else if s.placed_tiles.any (fun t => t.tile_position = c) then none
      else if is_on_island c s then some (manhattan p c)
      else none
    match listMin (ds1 ++ ds2) with
    | some d => d
    | none => 0

/-- `GameRunner._calculate_wave_points`: 2 if no other wave shares the row or
column and no wave sits in the 8-neighbourhood, else 0. -/
def calculate_wave_points (p : Pos) (s : SaveState) : Int :=
  let rowColClash := s.placed_tiles.any fun t =>
    t.choice.tile_type = "waves" ∧ t.tile_position ≠ p ∧
      (t.tile_position.1 = p.1 ∨ t.tile_position.2 = p.2)
  let nearbyClash := (get_nearby_positions p).any fun q =>
    match get_tile_at_position q s with
    | some t => t.choice.tile_type = "waves"
    | none => false
  if rowColClash ∨ nearbyClash then 0 else 2

/-- `GameRunner._calculate_beach_points`: 1 point per adjacent cell on an island. -/
def calculate_beach_points (p : Pos) (s : SaveState) : Int :=
  ((get_adjacent_positions p).filter fun q => is_on_island q s).length

/-- `GameRunner._calculate_house_points`: number of distinct non-house tile
types among the 8 neighbours. -/
def calculate_house_points (p : Pos) (s : SaveState) : Int :=
  (((get_nearby_positions p).filterMap fun q =>
    match get_tile_at_position q s with
    | some t => if t.choice.tile_type = "houses" then none else some t.choice.tile_type
    | none => none).dedup).length

/-- `GameRunner._has_another_church_on_island`. -/
def has_another_church_on_island (p : Pos) (s : SaveState) : Bool :=
  s.placed_tiles.any fun t =>
    t.choice.tile_type = "churches" ∧ t.tile_position ≠ p ∧
      is_on_same_island p t.tile_position s

/-- `GameRunner._calculate_church_points`: 0 with another church on the same
island; otherwise 2 per nearby house plus 1 per further house on the island. -/
def calculate_church_points (p : Pos) (s : SaveState) : Int :=
  if has_another_church_on_island p s then 0
  else
    let nearbyHouses : List Pos := (get_nearby_positions p).filter fun q =>
      match get_tile_at_position q s with
      | some t => t.choice.tile_type = "houses"
      | none => false
    let islandHouses : Nat := s.placed_tiles.countP fun t =>
      t.choice.tile_type = "houses" ∧ is_on_same_island p t.tile_position s ∧
        t.tile_position ∉ nearbyHouses
    2 * nearbyHouses.length + islandHouses

/-- `GameRunner._calculate_mountain_points`: 2 per forest in the 8-neighbourhood. -/
def calculate_mountain_points (p : Pos) (s : SaveState) : Int :=
  2 * ((get_nearby_positions p).filter fun q =>
    match get_tile_at_position q s with
    | some t => t.choice.tile_type = "forest"
    | none => false).length

/-- Whether the (first) tile at a position is a forest tile. -/
def isForestAt (s : SaveState) (p : Pos) : Bool :=
  match get_tile_at_position p s with
  | some t => t.choice.tile_type = "forest"
  | none => false

/-- Forest-tile successors of a cell: adjacent positions holding a forest tile
(the positions `_dfs_forest` recurses into and keeps). -/
def forestAdj (s : SaveState) (a : Pos) : List Pos :=
  (get_adjacent_positions a).filter (isForestAt s)

/-- One closure step of the forest traversal: add every forest neighbour of a
cell already collected. -/
def expandForest (s : SaveState) (cur : Finset Pos) : Finset Pos :=
  cur ∪ cur.biUnion fun a => (forestAdj s a).toFinset

/-- `GameRunner._get_forest_group`: the set of cells collected by the
depth-first search of `_dfs_forest` — the forest tiles reachable from the
start through chains of adjacent forest tiles.  The search only ever visits
the start and grid cells, so 82 closure iterations reach the fixed point. -/
def get_forest_group (p : Pos) (s : SaveState) : Finset Pos :=
  if isForestAt s p then (expandForest s)^[82] {p} else ∅

/-- `GameRunner._calculate_forest_points`: group of `n > 1` forests shares
`2*(n-1)` points, distributed by position in the sorted group. -/
def calculate_forest_points (p : Pos) (s : SaveState) : Int :=
  let G := get_forest_group p s
  if G.card ≤ 1 then 0
  else
    let total := (G.card - 1) * 2
    let base := total / G.card
    let remainder := total % G.card
    let idx := (G.sort posLe).indexOf p
    if idx < remainder then ((base + 1 : Nat) : Int) else ((base : Nat) : Int)

/-- `GameRunner._calculate_tile_points`: dispatch on the tile type string. -/
def calculate_tile_points (t : PlacedTile) (s : SaveState) : Int :=
  let p := t.tile_position
  if t.choice.tile_type = "ships" then calculate_ship_points p s
  else if t.choice.tile_type = "waves" then calculate_wave_points p s
  else if t.choice.tile_type = "beach" then calculate_beach_points p s
  else if t.choice.tile_type = "houses" then calculate_house_points p s
  else if t.choice.tile_type = "churches" then calculate_church_points p s
  else if t.choice.tile_type = "forest" then calculate_forest_points p s
  else if t.choice.tile_type = "mountain" then calculate_mountain_points p s
  else 0

/-- `GameRunner._is_feature_in_wrong_location`: land features off-island,
sea features on an island, beaches on an island. -/
def is_feature_in_wrong_location (t : PlacedTile) (s : SaveState) : Bool :=
  let ty := t.choice.tile_type
  let onIsl := is_on_island t.tile_position s
  if (ty = "houses" ∨ ty = "churches" ∨ ty = "forest" ∨ ty = "mountain") ∧ ¬ onIsl then true
  else if (ty = "ships" ∨ ty = "waves") ∧ onIsl then true
  else if ty = "beach" ∧ onIsl then true
  else false

/-- `GameRunner._calculate_location_penalties`: 5 points per misplaced feature. -/
def calculate_location_penalties (s : SaveState) : Int :=
  s.placed_tiles.foldl (fun acc t => if is_feature_in_wrong_location t s then acc + 5 else acc) 0

/-- `GameRunner.calculate_points`: 0 until the game has ended, then the sum of
per-tile points minus the location penalties. -/
def calculate_points (s : SaveState) : Int :=
  if ¬ decide_end s then 0
  else (s.placed_tiles.foldl (fun acc t => acc + calculate_tile_points t s) 0)
    - calculate_location_penalties s

/-- The 4 direction offsets `[(-1, 0), (1, 0), (0, -1), (0, 1)]` used by the resolver loops. -/
def dirOffsets : List Pos := [(-1, 0), (1, 0), (0, -1), (0, 1)]

/-- One BFS round of `GameRunner._are_tiles_connected`: pop the queue head and
enqueue its unvisited neighbours that belong to the tile list. -/
def bfsStep (tiles : List Pos) : Nat → List Pos → Finset Pos → Finset Pos
  | 0, _, visited => visited
  | _ + 1, [], visited => visited
  | fuel + 1, current :: rest, visited =>
    let st := dirOffsets.foldl (fun (acc : List Pos × Finset Pos) d =>
      let neighbor : Pos := (current.1 + d.1, current.2 + d.2)
      if neighbor ∈ tiles ∧ neighbor ∉ acc.2 then (acc.1 ++ [neighbor], insert neighbor acc.2)
      else acc) (rest, visited)
    bfsStep tiles fuel st.1 st.2

/-- `GameRunner._are_tiles_connected`: BFS from the first tile; connected iff
the visited count equals the length of the tile list.  The loop pops one cell
per round and every cell is enqueued at most once, so `tiles.length + 1`
rounds drain the queue. -/
def are_tiles_connected (tiles : List Pos) : Bool :=
  match tiles with
  | [] => true
  | [_] => true
  | t0 :: _ =>
    (bfsStep tiles (tiles.length + 1) [t0] {t0}).card = tiles.length

/-- `tuple(sorted([u, v]))`: the lexicographically sorted pair. -/
def sortPair (u v : Pos) : Pos × Pos := if posLe u v then (u, v) else (v, u)

/-- The edge identifier `_calculate_border_length` builds for the side of cell
`(x, y)` facing offset `d` — note that both vertical-direction branches sort
the same two tuples, as do both horizontal-direction branches. -/
def borderEdgeKey (p : Pos) (d : Pos) : Pos × Pos :=
  if d.1 = 0 then
    if d.2 < 0 then sortPair (p.1, p.2) (p.1, p.2 + 1) else sortPair (p.1, p.2 + 1) (p.1, p.2)
  else
    if d.1 < 0 then sortPair (p.1, p.2) (p.1 + 1, p.2) else sortPair (p.1 + 1, p.2) (p.1, p.2)

/-- The `border_edges` set accumulated by `GameRunner._calculate_border_length`. -/
def borderEdgeKeys (tiles : List Pos) : Finset (Pos × Pos) :=
  tiles.foldl (fun acc p =>
    dirOffsets.foldl (fun acc2 d =>
      let neighbor : Pos := (p.1 + d.1, p.2 + d.2)
      if neighbor ∈ tiles.toFinset then acc2 else insert (borderEdgeKey p d) acc2) acc) ∅

/-- `GameRunner._calculate_border_length`: the number of distinct edge identifiers. -/
def calculate_border_length (tiles : List Pos) : Nat :=
  if tiles = [] then 0 else (borderEdgeKeys tiles).card

/-- `GameRunner._is_position_surrounded`: all 4 orthogonal neighbours are members. -/
def is_position_surrounded (p : Pos) (tileSet : Finset Pos) : Bool :=
  (dirOffsets.countP fun d => ((p.1 + d.1, p.2 + d.2) : Pos) ∈ tileSet) = 4

/-- Inclusive integer range `a..b` as a list (`range(a, b + 1)`). -/
def intRange (a b : Int) : List Int :=
  (List.range (b + 1 - a).toNat).map fun i => a + (i : Int)

/-- `GameRunner._is_area_enclosed`: no non-member cell of the bounding box has
all 4 orthogonal neighbours inside the set. -/
def is_area_enclosed (tiles : List Pos) : Bool :=
  match tiles with
  | [] => true
  | [_] => true
  | t0 :: rest =>
    let tileSet := tiles.toFinset
    let minX := rest.foldl (fun m q => min m q.1) t0.1
    let maxX := rest.foldl (fun m q => max m q.1) t0.1
    let minY := rest.foldl (fun m q => min m q.2) t0.2
    let maxY := rest.foldl (fun m q => max m q.2) t0.2
    ¬ (intRange minX maxX).any fun x => (intRange minY maxY).any fun y =>
        ((x, y) : Pos) ∉ tileSet ∧ is_position_surrounded (x, y) tileSet

/-- `GameRunner._validate_border_tiles`: non-empty, connected, hole-free, and
border length at most `MAX_BORDER_LINES`. -/
def validate_border_tiles (tiles : List Pos) : Bool :=
  if tiles = [] then false
  else if ¬ are_tiles_connected tiles then false
  else if ¬ is_area_enclosed tiles then false
  else if calculate_border_length tiles > MAX_BORDER_LINES then false
  else true

/-- `GameRunner._lines_equal`: equality of border lines up to endpoint swap. -/
def lines_equal (l1 l2 : BorderLine) : Bool :=
  (l1.start_pos = l2.start_pos ∧ l1.end_pos = l2.end_pos) ∨
    (l1.start_pos = l2.end_pos ∧ l1.end_pos = l2.start_pos)

/-- `GameRunner._tiles_to_border_lines`: emit a `BorderLine` for every exposed
side, skipping lines already present (up to `lines_equal`). -/
def tiles_to_border_lines (tiles : List Pos) : List BorderLine :=
  if tiles = [] then []
  else
    let tileSet := tiles.toFinset
    tiles.foldl (fun (acc : List BorderLine) (p : Pos) =>
      dirOffsets.foldl (fun (acc2 : List BorderLine) (d : Pos) =>
        let neighbor : Pos := (p.1 + d.1, p.2 + d.2)
        if neighbor ∈ tileSet then acc2
        else
          let bl : BorderLine :=
            if d.1 = 0 then
              { start_pos := if d.2 < 0 then (p.1, p.2) else (p.1, p.2 + 1),
                end_pos := if d.2 < 0 then (p.1 + 1, p.2) else (p.1 + 1, p.2 + 1),
                is_horizontal := false }
            else
              { start_pos := if d.1 < 0 then (p.1, p.2) else (p.1 + 1, p.2),
                end_pos := if d.1 < 0 then (p.1, p.2 + 1) else (p.1 + 1, p.2 + 1),
                is_horizontal := true }
          if acc2.any (lines_equal bl) then acc2 else acc2 ++ [bl]) acc) []

/-- `GameRunner.make_turn`.  `raise ValueError` is modeled as `Except.error`;
the `copy.deepcopy` of the source means the input snapshot is never touched,
which the purely functional embedding renders automatic.  Python's
`if border_tiles:` treats both `None` and the empty list as "no border
submitted", so validation is reached only for a non-empty candidate list.
(`TURN_ACTIONS[turn_index]` is modeled with turn numbers `>= 1`; the guard
`decide_end` keeps the index in bounds there.) -/
def make_turn (s : SaveState) (chosen discarded : Choice) (tile_position : Pos)
    (border_tiles : Option (List Pos)) : Except String SaveState :=
  if decide_end s then .error "Cannot make turn: game has ended"
  else
    let chosen_tile : PlacedTile := ⟨chosen, tile_position⟩
    let discarded_tile : PlacedTile := ⟨discarded, tile_position⟩
    let turn_index := s.current_turn - 1
    if TURN_ACTIONS.getD turn_index "choice" = "border" then
      let bt := border_tiles.getD []
      if bt ≠ [] then
        if ¬ validate_border_tiles bt then
          .error "Invalid border tiles: must be connected, enclosed, and have border length <= 24"
        else
          let bls := tiles_to_border_lines bt
          let island : Island := ⟨bls, bt.toFinset, decide (bt.length < 10)⟩
          .ok { s with
                border_lines := s.border_lines ++ bls,
                islands := s.islands ++ [island],
                choice_history := s.choice_history ++ [⟨chosen_tile, discarded_tile, bls⟩],
                current_turn := s.current_turn + 1 }
      else
        .ok { s with
              choice_history := s.choice_history ++ [⟨chosen_tile, discarded_tile, []⟩],
              current_turn := s.current_turn + 1 }
    else
      .ok { s with
            placed_tiles := s.placed_tiles ++ [chosen_tile],
            choice_history := s.choice_history ++ [⟨chosen_tile, discarded_tile, []⟩],
            current_turn := s.current_turn + 1 }

/-! ## Serialization (`to_dict` / `from_dict`)

The dictionaries produced by the `to_dict` methods are modeled by a small
JSON-like value type; the `from_dict` classmethods become decoders returning
`Option` (a missing or ill-typed mandatory key is Python's `KeyError`/
`TypeError`).  Python's `list(set)` enumerates the set in an unspecified
order; the encoder uses the sorted enumeration — the decoder rebuilds the
set, so the round trip is insensitive to that order. -/

/-- A structured document value: ints, strings, booleans, arrays, string-keyed objects. -/
inductive Val where
  | int (i : Int)
  | str (s : String)
  | bool (b : Bool)
  | arr (l : List Val)
  | obj (fields : List (String × Val))

/-- Look a key up in an object's field list (`data[key]`). -/
def getField (fields : List (String × Val)) (k : String) : Option Val :=
  (fields.find? fun kv => kv.1 = k).map (·.2)

/-- `data.get(key, default)`. -/
def getFieldD (fields : List (String × Val)) (k : String) (d : Val) : Val :=
  (getField fields k).getD d

def asInt : Val → Option Int
  | .int i => some i
  | _ => none

def asStr : Val → Option String
  | .str s => some s
  | _ => none

def asBool : Val → Option Bool
  | .bool b => some b
  | _ => none

/-- Decode each element of an array, failing if any element fails. -/
def decodeList (dec : Val → Option α) : Val → Option (List α)
  | .arr [] => some []
  | .arr (v :: vs) => do
    let a ← dec v
    let as ← decodeList dec (.arr vs)
    pure (a :: as)
  | _ => none

/-- A position serializes as the two-element array of its coordinates. -/
def encodePos (p : Pos) : Val := .arr [.int p.1, .int p.2]

/-- `tuple(data)` on a serialized position. -/
def decodePos : Val → Option Pos
  | .arr [.int x, .int y] => some (x, y)
  | _ => none

/-- `Choice.to_dict`. -/
def encodeChoice (c : Choice) : Val :=
  .obj [("tileType", .str c.tile_type), ("chunkType", .str c.chunk_type),
        ("chunkPosition", .int c.chunk_position)]

/-- `Choice.from_dict`. -/
def decodeChoice : Val → Option Choice
  | .obj o => do
    let tt ← (getField o "tileType").bind asStr
    let ct ← (getField o "chunkType").bind asStr
    let cp ← (getField o "chunkPosition").bind asInt
    pure ⟨tt, ct, cp⟩
  | _ => none

/-- `PlacedTile.to_dict`. -/
def encodePlacedTile (t : PlacedTile) : Val :=
  .obj [("chosenChoice", encodeChoice t.choice), ("tilePosition", encodePos t.tile_position)]

/-- `PlacedTile.from_dict`. -/
def decodePlacedTile : Val → Option PlacedTile
  | .obj o => do
    let c ← (getField o "chosenChoice").bind decodeChoice
    let p ← (getField o "tilePosition").bind decodePos
    pure ⟨c, p⟩
  | _ => none

/-- `BorderLine.to_dict`. -/
def encodeBorderLine (l : BorderLine) : Val :=
  .obj [("startPos", encodePos l.start_pos), ("endPos", encodePos l.end_pos),
        ("isHorizontal", .bool l.is_horizontal)]

/-- `BorderLine.from_dict`. -/
def decodeBorderLine : Val → Option BorderLine
  | .obj o => do
    let sp ← (getField o "startPos").bind decodePos
    let ep ← (getField o "endPos").bind decodePos
    let ih ← (getField o "isHorizontal").bind asBool
    pure ⟨sp, ep, ih⟩
  | _ => none

/-- `Island.to_dict` (`list(self.enclosed_positions)` taken in sorted order). -/
def encodeIsland (i : Island) : Val :=
  .obj [("borderLines", .arr (i.border_lines.map encodeBorderLine)),
        ("enclosedPositions", .arr ((i.enclosed_positions.sort posLe).map encodePos)),
        ("isLake", .bool i.is_lake)]

/-- `Island.from_dict`: rebuilds the `set(tuple(pos) ...)`. -/
def decodeIsland : Val → Option Island
  | .obj o => do
    let bls ← (getField o "borderLines").bind (decodeList decodeBorderLine)
    let eps ← (getField o "enclosedPositions").bind (decodeList decodePos)
    let lake ← (getField o "isLake").bind asBool
    pure ⟨bls, eps.toFinset, lake⟩
  | _ => none

/-- `TurnHistory.to_dict`. -/
def encodeTurnHistory (h : TurnHistory) : Val :=
  .obj [("chosenChoice", encodePlacedTile h.chosen_tile),
        ("discardedChoice", encodePlacedTile h.discarded_tile),
        ("borderLines", .arr (h.border_lines.map encodeBorderLine))]

/-- `TurnHistory.from_dict` (`data.get("borderLines", [])`). -/
def decodeTurnHistory : Val → Option TurnHistory
  | .obj o => do
    let ct ← (getField o "chosenChoice").bind decodePlacedTile
    let dt ← (getField o "discardedChoice").bind decodePlacedTile
    let bls ← decodeList decodeBorderLine (getFieldD o "borderLines" (.arr []))
    pure ⟨ct, dt, bls⟩
  | _ => none

/-- `SaveState.to_dict`. -/
def encodeSaveState (s : SaveState) : Val :=
  .obj [("currentTurn", .int s.current_turn),
        ("choiceHistory", .arr (s.choice_history.map encodeTurnHistory)),
        ("gameId", .str s.game_id),
        ("createdAt", .str s.created_at),
        ("placedTiles", .arr (s.placed_tiles.map encodePlacedTile)),
        ("borderLines", .arr (s.border_lines.map encodeBorderLine)),
        ("islands", .arr (s.islands.map encodeIsland))]

/-- `SaveState.from_dict` (optional keys default to the empty list). -/
def decodeSaveState : Val → Option SaveState
  | .obj o => do
    let ct ← (getField o "currentTurn").bind asInt
    let hist ← (getField o "choiceHistory").bind (decodeList decodeTurnHistory)
    let gid ← (getField o "gameId").bind asStr
    let cat ← (getField o "createdAt").bind asStr
    let tiles ← decodeList decodePlacedTile (getFieldD o "placedTiles" (.arr []))
    let bls ← decodeList decodeBorderLine (getFieldD o "borderLines" (.arr []))
    let isls ← decodeList decodeIsland (getFieldD o "islands" (.arr []))
    pure ⟨ct.toNat, hist, gid, cat, tiles, bls, isls⟩
  | _ => none

/-! ## Definitions taken from the specification's wording

These three definitions follow the spec/claim text rather than the code; each
is compared against the corresponding source-derived definition above. -/

/-- Modelled from the spec: the geometric unit edge shared by cell `p` and its
neighbour at offset `d` — the segment between the two grid vertices the two
cells share, identified by its sorted endpoint pair. -/
def geomEdgeKey (p : Pos) (d : Pos) : Pos × Pos :=
  if d.1 = 0 then
    if d.2 < 0 then sortPair (p.1, p.2) (p.1 + 1, p.2)
    else sortPair (p.1, p.2 + 1) (p.1 + 1, p.2 + 1)
  else
    if d.1 < 0 then sortPair (p.1, p.2) (p.1, p.2 + 1)
    else sortPair (p.1 + 1, p.2) (p.1 + 1, p.2 + 1)

/-- Modelled from the spec: the set of distinct geometric boundary edges of a
region (one per side of a member cell facing a non-member neighbour,
deduplicated only when two emissions denote the same geometric edge). -/
def geomBorderEdges (tiles : List Pos) : Finset (Pos × Pos) :=
  tiles.foldl (fun acc p =>
    dirOffsets.foldl (fun acc2 d =>
      let neighbor : Pos := (p.1 + d.1, p.2 + d.2)
      if neighbor ∈ tiles.toFinset then acc2 else insert (geomEdgeKey p d) acc2) acc) ∅

/-- Modelled from the spec: the number of distinct geometric unit boundary edges. -/
def geom_border_length (tiles : List Pos) : Nat := (geomBorderEdges tiles).card

/-- Modelled from the claim (C8): the reference cells of a ship — every grid
cell other than the ship's own that is inside any island or holds another
(placed) ship. -/
def spec_ship_reference_cells (p : Pos) (s : SaveState) : List Pos :=
  allGridCells.filter fun c =>
    c ≠ p ∧ (is_on_island c s ∨ s.placed_tiles.any fun t =>
      t.tile_position = c ∧ t.choice.tile_type = "ships")

/-- Modelled from the claim (C8): 0 on an island, else the minimum Manhattan
distance to a reference cell, 0 when none exists. -/
def spec_ship_points (p : Pos) (s : SaveState) : Int :=
  if is_on_island p s then 0
  else
    match listMin ((spec_ship_reference_cells p s).map (manhattan p)) with
    | some d => d
    | none => 0

/-- Modelled from the claim (C6): a tile is in the wrong zone when it is a
ship or wave inside an island, a house/church/forest/mountain outside every
island, or a beach inside an island. -/
def spec_wrong_zone (t : PlacedTile) (s : SaveState) : Bool :=
  let ty := t.choice.tile_type
  let onIsl := is_on_island t.tile_position s
  ((ty = "ships" ∨ ty = "waves") ∧ onIsl) ∨
    ((ty = "houses" ∨ ty = "churches" ∨ ty = "forest" ∨ ty = "mountain") ∧ ¬ onIsl) ∨
    (ty = "beach" ∧ onIsl)

/-! ## Helper lemmas on `make_turn` -/

deriving instance DecidableEq for Except

/-- Whether an `Except` result is a success. -/
def exceptOk : Except String SaveState → Bool
  | .ok _ => true
  | .error _ => false

/-- The islands of a successful result (empty on error). -/
def resultIslands (e : Except String SaveState) : List Island :=
  match e with
  | .ok s' => s'.islands
  | .error _ => []

/-- The placed tiles of a successful result (empty on error). -/
def resultPlacedTiles (e : Except String SaveState) : List PlacedTile :=
  match e with
  | .ok s' => s'.placed_tiles
  | .error _ => []

theorem make_turn_choice_eq (s : SaveState) (ch dc : Choice) (pos : Pos) (bt : Option (List Pos))
    (hend : decide_end s = false)
    (hact : TURN_ACTIONS.getD (s.current_turn - 1) "choice" ≠ "border") :
    make_turn s ch dc pos bt =
      .ok { s with
            placed_tiles := s.placed_tiles ++ [⟨ch, pos⟩],
            choice_history := s.choice_history ++ [⟨⟨ch, pos⟩, ⟨dc, pos⟩, []⟩],
            current_turn := s.current_turn + 1 } := by
  unfold make_turn
  simp only [List.getD_eq_getElem?_getD] at hact
  simp [hend, hact]

theorem make_turn_border_skip_eq (s : SaveState) (ch dc : Choice) (pos : Pos)
    (hend : decide_end s = false)
    (hact : TURN_ACTIONS.getD (s.current_turn - 1) "choice" = "border") :
    make_turn s ch dc pos (some []) =
      .ok { s with
            choice_history := s.choice_history ++ [⟨⟨ch, pos⟩, ⟨dc, pos⟩, []⟩],
            current_turn := s.current_turn + 1 } := by
  unfold make_turn
  simp only [List.getD_eq_getElem?_getD] at hact
  simp [hend, hact]

theorem make_turn_border_invalid_eq (s : SaveState) (ch dc : Choice) (pos : Pos) (bt : List Pos)
    (hend : decide_end s = false)
    (hact : TURN_ACTIONS.getD (s.current_turn - 1) "choice" = "border")
    (hbt : bt ≠ [])
    (hinv : validate_border_tiles bt = false) :
    make_turn s ch dc pos (some bt) =
      .error "Invalid border tiles: must be connected, enclosed, and have border length <= 24" := by
  unfold make_turn
  simp only [List.getD_eq_getElem?_getD] at hact
  simp [hend, hact, hbt, hinv]

theorem make_turn_border_valid_eq (s : SaveState) (ch dc : Choice) (pos : Pos) (bt : List Pos)
    (hend : decide_end s = false)
    (hact : TURN_ACTIONS.getD (s.current_turn - 1) "choice" = "border")
    (hbt : bt ≠ [])
    (hval : validate_border_tiles bt = true) :
    make_turn s ch dc pos (some bt) =
      .ok { s with
            border_lines := s.border_lines ++ tiles_to_border_lines bt,
            islands := s.islands ++ [⟨tiles_to_border_lines bt, bt.toFinset, decide (bt.length < 10)⟩],
            choice_history := s.choice_history ++
              [⟨⟨ch, pos⟩, ⟨dc, pos⟩, tiles_to_border_lines bt⟩],
            current_turn := s.current_turn + 1 } := by
  unfold make_turn
  simp only [List.getD_eq_getElem?_getD] at hact
  simp [hend, hact, hbt, hval]

/-! ## Claim C1 -/

/-- A state at turn number 30 with empty collections. -/
def turn30State : SaveState :=
  { current_turn := 30, choice_history := [], game_id := "g", created_at := "t",
    placed_tiles := [], border_lines := [], islands := [] }

/-- C1: the claim says `hasEnded(state)` iff `turnNumber > 30` with a 30-turn
schedule; the code's `TURN_ACTIONS` table has only 29 entries (its third cycle
holds eight placement turns, contradicting the source's own comment "9
choices, then a border draw, repeated 3 times"), so `decide_end` is
`current_turn > 29` and is already true at turn 30. -/
theorem c1_turn_schedule_off_by_one :
    TURN_ACTIONS.length = 29 ∧
    (∀ s : SaveState, decide_end s = decide (s.current_turn > 29)) ∧
    decide_end turn30State = true ∧ ¬ ((30 : Nat) > 30) := by
  refine ⟨rfl, fun s => rfl, rfl, by omega⟩

/-! ## Claim C2 -/

/-- A turn-1 state whose cell `(0,0)` already holds a tile. -/
def occupiedState : SaveState :=
  { current_turn := 1, choice_history := [], game_id := "g", created_at := "t",
    placed_tiles := [⟨⟨"houses", "cluster", 1⟩, (0, 0)⟩], border_lines := [], islands := [] }

/-- C2 (counterexample): on a placement turn whose target cell is occupied,
`make_turn` succeeds — it does not fail with an occupied-cell error — and the
resulting state holds two tiles at `(0, 0)`. -/
theorem c2_occupied_cell_accepted :
    (occupiedState.placed_tiles.any fun t => t.tile_position = ((0 : Int), (0 : Int))) = true ∧
    exceptOk (make_turn occupiedState ⟨"forest", "cluster", 2⟩ ⟨"waves", "cluster", 3⟩
      ((0 : Int), (0 : Int)) none) = true ∧
    (resultPlacedTiles (make_turn occupiedState ⟨"forest", "cluster", 2⟩ ⟨"waves", "cluster", 3⟩
      ((0 : Int), (0 : Int)) none)).countP
      (fun t => t.tile_position = ((0 : Int), (0 : Int))) = 2 := by
  decide

/-- C2 (amended): `make_turn` performs no occupancy check on placement turns:
it always succeeds (game not ended), appending the chosen tile even at an
already-occupied position, so a cell can end up holding two tiles; occupied-
cell rejection is left to the caller.  (`1 ≤ current_turn` restricts to the
1-based turn numbers of the data model, where the embedding's list indexing
matches Python's.) -/
theorem c2_no_occupancy_check (s : SaveState) (ch dc : Choice) (pos : Pos)
    (h1 : 1 ≤ s.current_turn)
    (hend : decide_end s = false)
    (hact : TURN_ACTIONS.getD (s.current_turn - 1) "choice" = "choice") :
    make_turn s ch dc pos none =
      .ok { s with
            placed_tiles := s.placed_tiles ++ [⟨ch, pos⟩],
            choice_history := s.choice_history ++ [⟨⟨ch, pos⟩, ⟨dc, pos⟩, []⟩],
            current_turn := s.current_turn + 1 } ∧
    ((s.placed_tiles.any fun t => t.tile_position = pos) = true →
      2 ≤ (s.placed_tiles ++ [(⟨ch, pos⟩ : PlacedTile)]).countP fun t => t.tile_position = pos) := by
  constructor
  · refine make_turn_choice_eq s ch dc pos none hend ?_
    simp only [List.getD_eq_getElem?_getD] at hact ⊢
    simp [hact]
  · intro hocc
    have h1 : 0 < s.placed_tiles.countP fun t => t.tile_position = pos := by
      rcases List.any_eq_true.mp hocc with ⟨t, ht, hp⟩
      exact List.countP_pos_iff.mpr ⟨t, ht, hp⟩
    have h2 : (s.placed_tiles ++ [(⟨ch, pos⟩ : PlacedTile)]).countP
        (fun t => t.tile_position = pos) =
        (s.placed_tiles.countP fun t => t.tile_position = pos) + 1 := by
      simp [List.countP_append]
    omega

/-- C2 (witness): the amended theorem applied to the occupied turn-1 state. -/
theorem c2_no_occupancy_check_witness :
    make_turn occupiedState ⟨"forest", "cluster", 2⟩ ⟨"waves", "cluster", 3⟩
      ((0 : Int), (0 : Int)) none =
      .ok { occupiedState with
            placed_tiles := occupiedState.placed_tiles ++ [⟨⟨"forest", "cluster", 2⟩, (0, 0)⟩],
            choice_history := occupiedState.choice_history ++
              [⟨⟨⟨"forest", "cluster", 2⟩, (0, 0)⟩, ⟨⟨"waves", "cluster", 3⟩, (0, 0)⟩, []⟩],
            current_turn := occupiedState.current_turn + 1 } ∧
    ((occupiedState.placed_tiles.any fun t => t.tile_position = ((0 : Int), (0 : Int))) = true →
      2 ≤ (occupiedState.placed_tiles ++
          [(⟨⟨"forest", "cluster", 2⟩, (0, 0)⟩ : PlacedTile)]).countP
        fun t => t.tile_position = ((0 : Int), (0 : Int))) :=
  c2_no_occupancy_check occupiedState ⟨"forest", "cluster", 2⟩ ⟨"waves", "cluster", 3⟩
    ((0 : Int), (0 : Int)) (by decide) (by decide) (by decide)

/-! ## Claim C3 -/

/-- A state at turn 10, the first border turn (`TURN_ACTIONS[9] = 'border'`). -/
def borderTurnState : SaveState :=
  { current_turn := 10, choice_history := [], game_id := "g", created_at := "t",
    placed_tiles := [], border_lines := [], islands := [] }

/-- C3 (counterexample): the empty candidate set fails the resolver's
non-empty check, yet `make_turn` on a border turn accepts it — Python's
`if border_tiles:` treats the empty list like `None`, skipping validation and
advancing the turn. -/
theorem c3_empty_candidate_accepted :
    validate_border_tiles [] = false ∧
    exceptOk (make_turn borderTurnState ⟨"houses", "cluster", 1⟩ ⟨"ships", "cluster", 2⟩
      ((0 : Int), (0 : Int)) (some [])) = true := by
  decide

/-- C3 (amended): on a border turn, a *non-empty* candidate set failing the
resolver checks makes `make_turn` fail with the invalid-region error (so no
new state is produced), while an empty candidate set skips validation
entirely: the turn is accepted unchanged except for the history append and
turn increment (no island is created). -/
theorem c3_invalid_region_rejected (s : SaveState) (ch dc : Choice) (pos : Pos)
    (h1 : 1 ≤ s.current_turn)
    (hend : decide_end s = false)
    (hact : TURN_ACTIONS.getD (s.current_turn - 1) "choice" = "border") :
    (∀ bt : List Pos, bt ≠ [] → validate_border_tiles bt = false →
      make_turn s ch dc pos (some bt) =
        .error "Invalid border tiles: must be connected, enclosed, and have border length <= 24") ∧
    make_turn s ch dc pos (some []) =
      .ok { s with
            choice_history := s.choice_history ++ [⟨⟨ch, pos⟩, ⟨dc, pos⟩, []⟩],
            current_turn := s.current_turn + 1 } := by
  exact ⟨fun bt hbt hinv => make_turn_border_invalid_eq s ch dc pos bt hend hact hbt hinv,
    make_turn_border_skip_eq s ch dc pos hend hact⟩

/-- C3 (witness): the amended theorem applied at the first border turn; the
disconnected pair `[(0,0), (5,5)]` is rejected with the error and the empty
set is accepted. -/
theorem c3_invalid_region_rejected_witness :
    make_turn borderTurnState ⟨"houses", "cluster", 1⟩ ⟨"ships", "cluster", 2⟩
      ((0 : Int), (0 : Int)) (some [(0, 0), (5, 5)]) =
      .error "Invalid border tiles: must be connected, enclosed, and have border length <= 24" ∧
    make_turn borderTurnState ⟨"houses", "cluster", 1⟩ ⟨"ships", "cluster", 2⟩
      ((0 : Int), (0 : Int)) (some []) =
      .ok { borderTurnState with
            choice_history := borderTurnState.choice_history ++
              [⟨⟨⟨"houses", "cluster", 1⟩, (0, 0)⟩, ⟨⟨"ships", "cluster", 2⟩, (0, 0)⟩, []⟩],
            current_turn := borderTurnState.current_turn + 1 } := by
  have h := c3_invalid_region_rejected borderTurnState ⟨"houses", "cluster", 1⟩
    ⟨"ships", "cluster", 2⟩ ((0 : Int), (0 : Int)) (by decide) (by decide) (by decide)
  exact ⟨h.1 [(0, 0), (5, 5)] (by decide) (by decide), h.2⟩

/-! ## Claim C5 -/

/-- C5: every successful `make_turn` increments the turn number by exactly one
and appends exactly one history record; the input snapshot itself is a value
the function never alters (the embedding is purely functional, mirroring the
source's `copy.deepcopy` of the input before any update). -/
theorem c5_turn_increment (s : SaveState) (ch dc : Choice) (pos : Pos)
    (bt : Option (List Pos)) (s' : SaveState)
    (h : make_turn s ch dc pos bt = .ok s') :
    s'.current_turn = s.current_turn + 1 ∧
    ∃ rec, s'.choice_history = s.choice_history ++ [rec] := by
  unfold make_turn at h
  dsimp only at h
  split_ifs at h with h1 h2 h3 h4
  all_goals try (rw [Except.ok.injEq] at h; subst h; exact ⟨rfl, _, rfl⟩)

/-- C5 (witness): a concrete placement at turn 1 from the occupied state. -/
theorem c5_turn_increment_witness :
    (resultPlacedTiles (make_turn occupiedState ⟨"forest", "cluster", 2⟩ ⟨"waves", "cluster", 3⟩
      ((1 : Int), (1 : Int)) none)).length = 2 ∧
    ((make_turn occupiedState ⟨"forest", "cluster", 2⟩ ⟨"waves", "cluster", 3⟩
        ((1 : Int), (1 : Int)) none).map SaveState.current_turn = .ok 2 ∧
      ∃ rec, (make_turn occupiedState ⟨"forest", "cluster", 2⟩ ⟨"waves", "cluster", 3⟩
        ((1 : Int), (1 : Int)) none).map SaveState.choice_history = .ok [rec]) := by
  refine ⟨by decide, ?_⟩
  have hrun : make_turn occupiedState ⟨"forest", "cluster", 2⟩ ⟨"waves", "cluster", 3⟩
      ((1 : Int), (1 : Int)) none =
      .ok { occupiedState with
            placed_tiles := occupiedState.placed_tiles ++
              [(⟨⟨"forest", "cluster", 2⟩, (1, 1)⟩ : PlacedTile)],
            choice_history := occupiedState.choice_history ++
              [⟨⟨⟨"forest", "cluster", 2⟩, (1, 1)⟩, ⟨⟨"waves", "cluster", 3⟩, (1, 1)⟩, []⟩],
            current_turn := occupiedState.current_turn + 1 } := by decide
  have h := c5_turn_increment occupiedState ⟨"forest", "cluster", 2⟩ ⟨"waves", "cluster", 3⟩
    ((1 : Int), (1 : Int)) none _ hrun
  rw [hrun]
  rcases h with ⟨h1, rec, h2⟩
  refine ⟨by simp [Except.map, h1, occupiedState], rec, ?_⟩
  simp only [Except.map]
  simpa [occupiedState] using h2

/-! ## Claim C10 -/

/-- A 4×3 ring of 10 cells surrounding the two-cell hole `{(1,1), (2,1)}`. -/
def ringTiles : List Pos :=
  [(0, 0), (1, 0), (2, 0), (3, 0), (0, 1), (3, 1), (0, 2), (1, 2), (2, 2), (3, 2)]

/-- C10: the ring around a two-cell interior hole passes border validation —
each hole cell has only three member neighbours (the fourth is the other hole
cell), so `_is_position_surrounded` never fires — and `make_turn` turns it
into an island whose enclosed positions are exactly the ring, excluding the
hole cells. -/
theorem c10_multicell_hole_accepted :
    (ringTiles ≠ [] ∧ ((1, 1) : Pos) ∉ ringTiles ∧ ((2, 1) : Pos) ∉ ringTiles) ∧
    ((dirOffsets.map fun d => (((1 : Int) + d.1, (1 : Int) + d.2) : Pos)).all
      (fun q => q ∈ ringTiles ∨ q = ((2 : Int), (1 : Int))) = true ∧
     (dirOffsets.map fun d => (((2 : Int) + d.1, (1 : Int) + d.2) : Pos)).all
      (fun q => q ∈ ringTiles ∨ q = ((1 : Int), (1 : Int))) = true) ∧
    is_position_surrounded (1, 1) ringTiles.toFinset = false ∧
    is_position_surrounded (2, 1) ringTiles.toFinset = false ∧
    validate_border_tiles ringTiles = true ∧
    ((resultIslands (make_turn borderTurnState ⟨"houses", "cluster", 1⟩ ⟨"ships", "cluster", 2⟩
        ((0 : Int), (0 : Int)) (some ringTiles))).map Island.enclosed_positions =
      [ringTiles.toFinset] ∧
     ((1, 1) : Pos) ∉ ringTiles.toFinset ∧ ((2, 1) : Pos) ∉ ringTiles.toFinset) := by
  decide

/-! ## Claim C4 -/

/-- The 3×3 square region with corner `(0,0)`. -/
def square3 : List Pos :=
  [(0, 0), (1, 0), (2, 0), (0, 1), (1, 1), (2, 1), (0, 2), (1, 2), (2, 2)]

/-- The 4×4 square region with corner `(0,0)`. -/
def square4 : List Pos :=
  [(0, 0), (1, 0), (2, 0), (3, 0), (0, 1), (1, 1), (2, 1), (3, 1),
   (0, 2), (1, 2), (2, 2), (3, 2), (0, 3), (1, 3), (2, 3), (3, 3)]

/-- C4 (counterexample): the resolver's boundary length of the single-cell
region `[(0,0)]` is 2, while the region has 4 distinct geometric unit
boundary edges — the resolver's edge identifier maps both vertical-direction
sides of a cell to the same sorted pair (and likewise both horizontal-
direction sides), merging opposite exposed sides. -/
theorem c4_single_cell_undercount :
    calculate_border_length [((0 : Int), (0 : Int))] = 2 ∧
    geom_border_length [((0 : Int), (0 : Int))] = 4 := by
  decide

/-- C4 (amended): the boundary length computed by the resolver counts distinct
edge *identifiers*, where the two vertical-direction sides of a cell share
one identifier and the two horizontal-direction sides share another, so
opposite exposed sides of one cell are merged (a single cell counts 2, not
4); for a non-empty, connected, hole-free region validation succeeds exactly
when this count is at most 24; a 3×3 square still counts 12 and a 4×4 square
16 (no cell of a full rectangle with both dimensions at least 2 has opposite
sides exposed, so the count agrees with the geometric one there). -/
theorem c4_border_length_check (tiles : List Pos)
    (hne : tiles ≠ [])
    (hconn : are_tiles_connected tiles = true)
    (hencl : is_area_enclosed tiles = true) :
    (validate_border_tiles tiles = true ↔ calculate_border_length tiles ≤ 24) ∧
    calculate_border_length square3 = 12 ∧ geom_border_length square3 = 12 ∧
    calculate_border_length square4 = 16 ∧ geom_border_length square4 = 16 := by
  refine ⟨?_, by decide, by decide, by decide, by decide⟩
  unfold validate_border_tiles MAX_BORDER_LINES
  simp only [hne, hconn, hencl]
  split_ifs with h1 h2 <;> simp_all

/-- C4 (witness): the bound applied to the 3×3 square, which is connected and
hole-free, giving that it validates. -/
theorem c4_border_length_check_witness :
    validate_border_tiles square3 = true :=
  ((c4_border_length_check square3 (by decide) (by decide) (by decide)).1).mpr (by decide)

/-! ## Claim C6 -/

theorem foldl_add_eq_sum (l : List PlacedTile) (f : PlacedTile → Int) (init : Int) :
    l.foldl (fun acc t => acc + f t) init = init + (l.map f).sum := by
  induction l generalizing init with
  | nil => simp
  | cons h t ih => simp [ih, add_assoc]

theorem foldl_penalty_eq_countP (w : PlacedTile → Bool) (l : List PlacedTile) (init : Int) :
    l.foldl (fun acc t => if w t then acc + 5 else acc) init = init + 5 * l.countP w := by
  induction l generalizing init with
  | nil => simp
  | cons h t ih =>
    by_cases hw : w h <;> (simp [hw, ih, List.countP_cons]; try ring)

theorem wrong_location_eq_spec (t : PlacedTile) (s : SaveState) :
    is_feature_in_wrong_location t s = spec_wrong_zone t s := by
  unfold is_feature_in_wrong_location spec_wrong_zone
  cases h : is_on_island t.tile_position s <;> simp [h]

/-- C6: before the game has ended `calculate_points` is 0; once it has ended,
the score is the sum of the per-tile scores minus 5 points per tile in the
wrong zone (a ship or wave inside an island, a house/church/forest/mountain
outside every island, or a beach inside an island). -/
theorem c6_score_structure (s : SaveState) :
    (decide_end s = false → calculate_points s = 0) ∧
    (decide_end s = true →
      calculate_points s =
        (s.placed_tiles.map fun t => calculate_tile_points t s).sum
          - 5 * (s.placed_tiles.countP fun t => spec_wrong_zone t s)) := by
  constructor
  · intro h
    unfold calculate_points
    simp [h]
  · intro h
    unfold calculate_points calculate_location_penalties
    rw [foldl_add_eq_sum, foldl_penalty_eq_countP]
    simp only [h]
    have : (s.placed_tiles.countP fun t => is_feature_in_wrong_location t s) =
        (s.placed_tiles.countP fun t => spec_wrong_zone t s) := by
      apply List.countP_congr
      intro t _
      simp [wrong_location_eq_spec]
    simp [this]

/-- A finished game (turn 30 > 29) holding one misplaced house. -/
def endedState : SaveState :=
  { current_turn := 30, choice_history := [], game_id := "g", created_at := "t",
    placed_tiles := [⟨⟨"houses", "cluster", 1⟩, (4, 4)⟩], border_lines := [], islands := [] }

/-- C6 (witness): the structure theorem applied to a finished one-house state
and to the unfinished turn-1 state. -/
theorem c6_score_structure_witness :
    calculate_points endedState =
      (endedState.placed_tiles.map fun t => calculate_tile_points t endedState).sum
        - 5 * (endedState.placed_tiles.countP fun t => spec_wrong_zone t endedState) ∧
    calculate_points occupiedState = 0 :=
  ⟨(c6_score_structure endedState).2 (by decide),
   (c6_score_structure occupiedState).1 (by decide)⟩

/-! ## Claim C8 -/

theorem foldl_min_mem (t : List Int) (h : Int) : t.foldl min h = h ∨ t.foldl min h ∈ t := by
  induction t generalizing h with
  | nil => exact Or.inl rfl
  | cons x xs ih =>
    have hfold : (x :: xs).foldl min h = xs.foldl min (min h x) := rfl
    rcases ih (min h x) with hm | hm
    · rcases min_cases h x with ⟨he, _⟩ | ⟨he, _⟩
      · exact Or.inl (by rw [hfold, hm, he])
      · exact Or.inr (by rw [hfold, hm, he]; exact List.mem_cons_self x xs)
    · exact Or.inr (by rw [hfold]; exact List.mem_cons_of_mem x hm)

theorem foldl_min_le (t : List Int) (h : Int) :
    t.foldl min h ≤ h ∧ ∀ b ∈ t, t.foldl min h ≤ b := by
  induction t generalizing h with
  | nil => simp
  | cons x xs ih =>
    rcases ih (min h x) with ⟨h1, h2⟩
    refine ⟨le_trans h1 (min_le_left _ _), ?_⟩
    intro b hb
    rcases List.mem_cons.mp hb with rfl | hb
    · exact le_trans h1 (min_le_right _ _)
    · exact h2 b hb

theorem listMin_spec (l : List Int) (a : Int) (h : listMin l = some a) :
    a ∈ l ∧ ∀ b ∈ l, a ≤ b := by
  cases l with
  | nil => simp [listMin] at h
  | cons x xs =>
    have ha : xs.foldl min x = a := by simpa [listMin] using h
    subst ha
    rcases foldl_min_mem xs x with hm | hm
    · refine ⟨by simp [hm], ?_⟩
      intro b hb
      rcases List.mem_cons.mp hb with rfl | hb
      · exact (foldl_min_le xs b).1
      · exact (foldl_min_le xs x).2 b hb
    · refine ⟨by simp [hm], ?_⟩
      intro b hb
      rcases List.mem_cons.mp hb with rfl | hb
      · exact (foldl_min_le xs b).1
      · exact (foldl_min_le xs x).2 b hb

theorem listMin_eq_none (l : List Int) : listMin l = none ↔ l = [] := by
  cases l <;> simp [listMin]

theorem listMin_congr (l1 l2 : List Int) (hmem : ∀ x, x ∈ l1 ↔ x ∈ l2) :
    listMin l1 = listMin l2 := by
  cases h1 : listMin l1 with
  | none =>
    rw [listMin_eq_none] at h1
    subst h1
    cases h2 : listMin l2 with
    | none => rfl
    | some a2 =>
      have := (listMin_spec l2 a2 h2).1
      rw [← hmem] at this
      simp at this
  | some a1 =>
    cases h2 : listMin l2 with
    | none =>
      rw [listMin_eq_none] at h2
      subst h2
      have := (listMin_spec l1 a1 h1).1
      rw [hmem] at this
      simp at this
    | some a2 =>
      rcases listMin_spec l1 a1 h1 with ⟨hm1, hle1⟩
      rcases listMin_spec l2 a2 h2 with ⟨hm2, hle2⟩
      have hle : a1 ≤ a2 := hle1 a2 ((hmem a2).mpr hm2)
      have hge : a2 ≤ a1 := hle2 a1 ((hmem a1).mp hm1)
      rw [le_antisymm hle hge]

theorem mem_allGridCells (c : Pos) : c ∈ allGridCells ↔ onGrid c := by
  constructor
  · intro hc
    rcases List.mem_flatMap.mp hc with ⟨y, hy, hin⟩
    rcases List.mem_map.mp hin with ⟨x, hx, hxy⟩
    rw [List.mem_range] at hy hx
    rw [← hxy]
    simp only [onGrid, GRID_SIZE, Int.ofNat_eq_coe]
    refine ⟨by omega, by omega, by omega, by omega⟩
  · intro hg
    rcases hg with ⟨h1, h2, h3, h4⟩
    rw [GRID_SIZE] at h2 h4
    refine List.mem_flatMap.mpr ⟨c.2.toNat, List.mem_range.mpr (by omega),
      List.mem_map.mpr ⟨c.1.toNat, List.mem_range.mpr (by omega), ?_⟩⟩
    cases c
    simp only [Prod.mk.injEq, Int.ofNat_eq_coe]
    constructor <;> simp_all

/-- C8: for states whose placed tiles all sit on the grid, the ship score of
the code equals the claim's description — 0 inside an island, otherwise the
minimum Manhattan distance over every grid cell (occupied or not) that is
another ship or inside any island, and 0 when no such reference cell exists. -/
theorem c8_ship_points_spec (p : Pos) (s : SaveState)
    (hgrid : ∀ t ∈ s.placed_tiles, onGrid t.tile_position) :
    calculate_ship_points p s = spec_ship_points p s := by
  unfold calculate_ship_points spec_ship_points
  by_cases hisl : is_on_island p s = true
  · simp [hisl]
  · simp only [hisl, if_false]
    have hmem : ∀ x : Int,
        x ∈ ((s.placed_tiles.filterMap fun t =>
            if t.tile_position = p then none
            else if t.choice.tile_type = "ships" ∨ is_on_island t.tile_position s then
              some (manhattan p t.tile_position)
            else none) ++ (allGridCells.filterMap fun c =>
            if c = p then none
            else if s.placed_tiles.any (fun t => t.tile_position = c) then none
            else if is_on_island c s then some (manhattan p c)
            else none)) ↔
          x ∈ (spec_ship_reference_cells p s).map (manhattan p) := by
      intro x
      simp only [List.mem_append, List.mem_filterMap, List.mem_map,
        spec_ship_reference_cells, List.mem_filter, decide_eq_true_eq]
      constructor
      · rintro (⟨t, ht, hx⟩ | ⟨c, hc, hx⟩)
        · by_cases h1 : t.tile_position = p
          · simp [h1] at hx
          · by_cases h2 : t.choice.tile_type = "ships" ∨ is_on_island t.tile_position s = true
            · rw [if_neg h1, if_pos (by tauto)] at hx
              rw [Option.some.injEq] at hx
              refine ⟨t.tile_position, ⟨(mem_allGridCells _).mpr (hgrid t ht), h1, ?_⟩, hx⟩
              rcases h2 with h2 | h2
              · exact Or.inr (List.any_eq_true.mpr ⟨t, ht, by simp [h2]⟩)
              · exact Or.inl h2
            · rw [if_neg h1, if_neg (by tauto)] at hx
              simp at hx
        · by_cases h1 : c = p
          · simp [h1] at hx
          · by_cases h2 : s.placed_tiles.any (fun t => t.tile_position = c) = true
            · rw [if_neg h1, if_pos h2] at hx
              simp at hx
            · by_cases h3 : is_on_island c s = true
              · rw [if_neg h1, if_neg (by simp [h2]), if_pos h3] at hx
                rw [Option.some.injEq] at hx
                exact ⟨c, ⟨hc, h1, Or.inl h3⟩, hx⟩
              · rw [if_neg h1, if_neg (by simp [h2]), if_neg h3] at hx
                simp at hx
      · rintro ⟨c, ⟨hcg, hcp, hcref⟩, hx⟩
        rcases hcref with hisl2 | hships
        · by_cases hocc : s.placed_tiles.any (fun t => t.tile_position = c) = true
          · rcases List.any_eq_true.mp hocc with ⟨t, ht, htp⟩
            rw [decide_eq_true_eq] at htp
            refine Or.inl ⟨t, ht, ?_⟩
            rw [if_neg (by rw [htp]; exact hcp), if_pos (by rw [htp]; exact Or.inr hisl2)]
            rw [htp, hx]
          · refine Or.inr ⟨c, hcg, ?_⟩
            rw [if_neg hcp, if_neg (by simp [hocc]), if_pos hisl2, hx]
        · rcases List.any_eq_true.mp hships with ⟨t, ht, htc⟩
          rw [decide_eq_true_eq] at htc
          rcases htc with ⟨htp, hty⟩
          refine Or.inl ⟨t, ht, ?_⟩
          rw [if_neg (by rw [htp]; exact hcp), if_pos (Or.inl hty), htp, hx]
    have hlm := listMin_congr _ _ hmem
    rw [hlm]

/-- A finished game with one ship at `(3,0)` and a one-cell island at `(0,0)`. -/
def shipState : SaveState :=
  { current_turn := 30, choice_history := [], game_id := "g", created_at := "t",
    placed_tiles := [⟨⟨"ships", "cluster", 1⟩, (3, 0)⟩],
    border_lines := [], islands := [⟨[], {(0, 0)}, true⟩] }

/-- C8 (witness): the equivalence applied to the concrete one-ship state,
where the ship scores its Manhattan distance 3 to the island cell. -/
theorem c8_ship_points_spec_witness :
    calculate_ship_points (3, 0) shipState = spec_ship_points (3, 0) shipState ∧
    calculate_ship_points (3, 0) shipState = 3 :=
  ⟨c8_ship_points_spec (3, 0) shipState (by decide), by decide⟩

/-! ## Claim C9 -/

theorem decodePos_encodePos (p : Pos) : decodePos (encodePos p) = some p := rfl

theorem decodeChoice_encodeChoice (c : Choice) : decodeChoice (encodeChoice c) = some c := by
  cases c
  rfl

theorem decodePlacedTile_encodePlacedTile (t : PlacedTile) :
    decodePlacedTile (encodePlacedTile t) = some t := by
  cases t with
  | mk c p =>
    simp [decodePlacedTile, encodePlacedTile, getField, decodeChoice_encodeChoice,
      decodePos_encodePos]

theorem decodeBorderLine_encodeBorderLine (l : BorderLine) :
    decodeBorderLine (encodeBorderLine l) = some l := by
  cases l
  rfl

theorem decodeList_map (dec : Val → Option α) (enc : α → Val) (l : List α)
    (h : ∀ a ∈ l, dec (enc a) = some a) :
    decodeList dec (.arr (l.map enc)) = some l := by
  induction l with
  | nil => simp [decodeList]
  | cons a t ih =>
    have ha := h a (by simp)
    have ht := ih fun b hb => h b (by simp [hb])
    simp [decodeList, ha, ht]

theorem decodeIsland_encodeIsland (i : Island) :
    decodeIsland (encodeIsland i) = some i := by
  cases i with
  | mk bls eps lake =>
    have h1 : decodeList decodeBorderLine (.arr (bls.map encodeBorderLine)) = some bls :=
      decodeList_map _ _ _ fun a _ => decodeBorderLine_encodeBorderLine a
    have h2 : decodeList decodePos (.arr ((eps.sort posLe).map encodePos)) =
        some (eps.sort posLe) :=
      decodeList_map _ _ _ fun a _ => decodePos_encodePos a
    simp [decodeIsland, encodeIsland, getField, asBool, h1, h2, Finset.sort_toFinset]

theorem decodeTurnHistory_encodeTurnHistory (h : TurnHistory) :
    decodeTurnHistory (encodeTurnHistory h) = some h := by
  cases h with
  | mk ct dt bls =>
    have h1 : decodeList decodeBorderLine (.arr (bls.map encodeBorderLine)) = some bls :=
      decodeList_map _ _ _ fun a _ => decodeBorderLine_encodeBorderLine a
    simp [decodeTurnHistory, encodeTurnHistory, getField, getFieldD, asBool,
      decodePlacedTile_encodePlacedTile, h1]

/-- C9: serializing a `SaveState` with `to_dict` and deserializing with
`from_dict` reproduces the state exactly — turn number, history, identifiers,
placed tiles, border lines and islands included. -/
theorem c9_save_state_roundtrip (s : SaveState) :
    decodeSaveState (encodeSaveState s) = some s := by
  cases s with
  | mk ct hist gid cat tiles bls isls =>
    have h1 : decodeList decodeTurnHistory (.arr (hist.map encodeTurnHistory)) = some hist :=
      decodeList_map _ _ _ fun a _ => decodeTurnHistory_encodeTurnHistory a
    have h2 : decodeList decodePlacedTile (.arr (tiles.map encodePlacedTile)) = some tiles :=
      decodeList_map _ _ _ fun a _ => decodePlacedTile_encodePlacedTile a
    have h3 : decodeList decodeBorderLine (.arr (bls.map encodeBorderLine)) = some bls :=
      decodeList_map _ _ _ fun a _ => decodeBorderLine_encodeBorderLine a
    have h4 : decodeList decodeIsland (.arr (isls.map encodeIsland)) = some isls :=
      decodeList_map _ _ _ fun a _ => decodeIsland_encodeIsland a
    simp [decodeSaveState, encodeSaveState, getField, getFieldD, asInt, asStr,
      h1, h2, h3, h4]

/-! ## Claim C7: the forest group as a least fixed point -/

theorem mem_adjacent_iff (a b : Pos) :
    b ∈ get_adjacent_positions a ↔
      onGrid b ∧ ((b.1 = a.1 - 1 ∧ b.2 = a.2) ∨ (b.1 = a.1 + 1 ∧ b.2 = a.2) ∨
        (b.1 = a.1 ∧ b.2 = a.2 - 1) ∨ (b.1 = a.1 ∧ b.2 = a.2 + 1)) := by
  unfold get_adjacent_positions
  constructor
  · intro h
    rcases List.mem_filterMap.mp h with ⟨d, hd, heq⟩
    dsimp only at heq
    split_ifs at heq with hg
    · rw [Option.some.injEq] at heq
      subst heq
      fin_cases hd <;> exact ⟨hg, by simp <;> omega⟩
  · rintro ⟨hb, hcase⟩
    have hx : ∃ d ∈ ([(-1, 0), (1, 0), (0, -1), (0, 1)] : List Pos),
        ((a.1 + d.1, a.2 + d.2) : Pos) = b := by
      rcases hcase with ⟨h1, h2⟩ | ⟨h1, h2⟩ | ⟨h1, h2⟩ | ⟨h1, h2⟩
      · exact ⟨(-1, 0), by norm_num, by cases b; simp_all; try omega⟩
      · exact ⟨(1, 0), by norm_num, by cases b; simp_all; try omega⟩
      · exact ⟨(0, -1), by norm_num, by cases b; simp_all; try omega⟩
      · exact ⟨(0, 1), by norm_num, by cases b; simp_all; try omega⟩
    rcases hx with ⟨d, hd, hdb⟩
    refine List.mem_filterMap.mpr ⟨d, hd, ?_⟩
    dsimp only
    rw [hdb, if_pos hb]

theorem adjacent_onGrid (a b : Pos) (h : b ∈ get_adjacent_positions a) : onGrid b :=
  ((mem_adjacent_iff a b).mp h).1

theorem adjacent_symm (a b : Pos) (ha : onGrid a) (h : b ∈ get_adjacent_positions a) :
    a ∈ get_adjacent_positions b := by
  rw [mem_adjacent_iff] at h ⊢
  exact ⟨ha, by omega⟩

theorem mem_forestAdj (s : SaveState) (a b : Pos) :
    b ∈ forestAdj s a ↔ b ∈ get_adjacent_positions a ∧ isForestAt s b = true := by
  simp [forestAdj, List.mem_filter]

theorem isForestAt_onGrid (s : SaveState) (p : Pos)
    (hgrid : ∀ t ∈ s.placed_tiles, onGrid t.tile_position)
    (h : isForestAt s p = true) : onGrid p := by
  unfold isForestAt get_tile_at_position at h
  cases hf : s.placed_tiles.find? (fun t => t.tile_position = p) with
  | none => rw [hf] at h; exact absurd h (by simp)
  | some t =>
    have ht := List.mem_of_find?_eq_some hf
    have htp : t.tile_position = p := by simpa using List.find?_some hf
    rw [← htp]
    exact hgrid t ht

/-- The grid cells as a finite set. -/
def gridFinset : Finset Pos := allGridCells.toFinset

theorem mem_gridFinset (c : Pos) : c ∈ gridFinset ↔ onGrid c := by
  rw [gridFinset, List.mem_toFinset, mem_allGridCells]

theorem card_gridFinset_le : gridFinset.card ≤ 81 := by
  have h := allGridCells.toFinset_card_le
  have hl : allGridCells.length = 81 := by decide
  rw [hl] at h
  exact h

theorem subset_expandForest (s : SaveState) (cur : Finset Pos) :
    cur ⊆ expandForest s cur :=
  Finset.subset_union_left

theorem iter_subset_insert_grid (s : SaveState) (p : Pos) (k : Nat) :
    (expandForest s)^[k] {p} ⊆ insert p gridFinset := by
  induction k with
  | zero => simp
  | succ k ih =>
    rw [Function.iterate_succ_apply']
    intro x hx
    rcases Finset.mem_union.mp hx with hx | hx
    · exact ih hx
    · rcases Finset.mem_biUnion.mp hx with ⟨a, _, hb⟩
      rw [List.mem_toFinset, mem_forestAdj] at hb
      exact Finset.mem_insert_of_mem ((mem_gridFinset x).mpr (adjacent_onGrid a x hb.1))

theorem iter_mono_step (s : SaveState) (p : Pos) (k : Nat) :
    (expandForest s)^[k] {p} ⊆ (expandForest s)^[k + 1] {p} := by
  rw [Function.iterate_succ_apply']
  exact subset_expandForest s _

theorem iter_fixed_point (s : SaveState) (p : Pos) :
    expandForest s ((expandForest s)^[82] {p}) = (expandForest s)^[82] {p} := by
  have hbound : ∀ k, ((expandForest s)^[k] {p}).card ≤ 82 := by
    intro k
    have h1 := Finset.card_le_card (iter_subset_insert_grid s p k)
    have h2 := Finset.card_insert_le p gridFinset
    have h3 := card_gridFinset_le
    omega
  have hstab : ∃ k < 82, (expandForest s)^[k] {p} = (expandForest s)^[k + 1] {p} := by
    by_contra hcon
    push_neg at hcon
    have hcard : ∀ k, k ≤ 82 → k + 1 ≤ ((expandForest s)^[k] {p}).card := by
      intro k
      induction k with
      | zero => intro _; simp
      | succ k ih =>
        intro hk
        have h1 := ih (by omega)
        have hlt : ((expandForest s)^[k] {p}).card < ((expandForest s)^[k + 1] {p}).card :=
          Finset.card_lt_card (lt_of_le_of_ne (iter_mono_step s p k) (hcon k (by omega)))
        omega
    have h82 := hcard 82 le_rfl
    have := hbound 82
    omega
  obtain ⟨k, hk, heq⟩ := hstab
  have hfix : expandForest s ((expandForest s)^[k] {p}) = (expandForest s)^[k] {p} := by
    have hsucc := Function.iterate_succ_apply' (expandForest s) k ({p} : Finset Pos)
    rw [← hsucc]
    exact heq.symm
  have h82k : (expandForest s)^[82] {p} = (expandForest s)^[k] {p} := by
    have hsplit : (82 : ℕ) = (82 - k) + k := by omega
    rw [hsplit, Function.iterate_add_apply]
    exact Function.iterate_fixed hfix (82 - k)
  rw [h82k, hfix]

theorem iter_least (s : SaveState) (p : Pos) (S : Finset Pos) (hp : p ∈ S)
    (hS : ∀ a ∈ S, ∀ b ∈ forestAdj s a, b ∈ S) (k : Nat) :
    (expandForest s)^[k] {p} ⊆ S := by
  induction k with
  | zero => simpa using Finset.singleton_subset_iff.mpr hp
  | succ k ih =>
    rw [Function.iterate_succ_apply']
    intro x hx
    rcases Finset.mem_union.mp hx with hx | hx
    · exact ih hx
    · rcases Finset.mem_biUnion.mp hx with ⟨a, ha, hb⟩
      rw [List.mem_toFinset] at hb
      exact hS a (ih ha) x hb

theorem self_mem_iter (s : SaveState) (p : Pos) (k : Nat) :
    p ∈ (expandForest s)^[k] {p} := by
  induction k with
  | zero => simp
  | succ k ih => exact iter_mono_step s p k ih

theorem iter_all_forest (s : SaveState) (p : Pos) (hp : isForestAt s p = true) (k : Nat) :
    ∀ q ∈ (expandForest s)^[k] {p}, isForestAt s q = true := by
  induction k with
  | zero =>
    intro q hq
    rw [Function.iterate_zero_apply, Finset.mem_singleton] at hq
    subst hq
    exact hp
  | succ k ih =>
    intro q hq
    rw [Function.iterate_succ_apply'] at hq
    rcases Finset.mem_union.mp hq with hq | hq
    · exact ih q hq
    · rcases Finset.mem_biUnion.mp hq with ⟨a, _, hb⟩
      rw [List.mem_toFinset, mem_forestAdj] at hb
      exact hb.2

theorem get_forest_group_eq_iter (s : SaveState) (p : Pos) (hp : isForestAt s p = true) :
    get_forest_group p s = (expandForest s)^[82] {p} := by
  unfold get_forest_group
  rw [if_pos hp]

theorem mem_group_self (s : SaveState) (p : Pos) (hp : isForestAt s p = true) :
    p ∈ get_forest_group p s := by
  rw [get_forest_group_eq_iter s p hp]
  exact self_mem_iter s p 82

theorem group_closed (s : SaveState) (p : Pos) (hp : isForestAt s p = true) :
    ∀ a ∈ get_forest_group p s, ∀ b ∈ forestAdj s a, b ∈ get_forest_group p s := by
  intro a ha b hb
  rw [get_forest_group_eq_iter s p hp] at ha ⊢
  rw [← iter_fixed_point s p]
  exact Finset.mem_union_right _ (Finset.mem_biUnion.mpr ⟨a, ha, List.mem_toFinset.mpr hb⟩)

theorem group_least (s : SaveState) (p : Pos) (hp : isForestAt s p = true) (S : Finset Pos)
    (hpS : p ∈ S) (hS : ∀ a ∈ S, ∀ b ∈ forestAdj s a, b ∈ S) :
    get_forest_group p s ⊆ S := by
  rw [get_forest_group_eq_iter s p hp]
  exact iter_least s p S hpS hS 82

theorem group_all_forest (s : SaveState) (p : Pos) (hp : isForestAt s p = true) :
    ∀ q ∈ get_forest_group p s, isForestAt s q = true := by
  intro q hq
  rw [get_forest_group_eq_iter s p hp] at hq
  exact iter_all_forest s p hp 82 q hq

/-- Any member of a forest group recomputes the same group: the depth-first
collection is invariant across the group's members (forest adjacency is
symmetric on the grid, so the least closed set containing one member is the
least closed set containing any other). -/
theorem forest_group_invariant (s : SaveState)
    (hgrid : ∀ t ∈ s.placed_tiles, onGrid t.tile_position) (p q : Pos)
    (hp : isForestAt s p = true) (hq : q ∈ get_forest_group p s) :
    get_forest_group q s = get_forest_group p s := by
  have hqf : isForestAt s q = true := group_all_forest s p hp q hq
  have h1 : get_forest_group q s ⊆ get_forest_group p s :=
    group_least s q hqf _ hq (group_closed s p hp)
  have haux : ∀ k, ∀ a ∈ (expandForest s)^[k] {p}, p ∈ get_forest_group a s := by
    intro k
    induction k with
    | zero =>
      intro a ha
      rw [Function.iterate_zero_apply, Finset.mem_singleton] at ha
      subst ha
      exact mem_group_self s a hp
    | succ k ih =>
      intro a ha
      rw [Function.iterate_succ_apply'] at ha
      rcases Finset.mem_union.mp ha with ha | ha
      · exact ih a ha
      · rcases Finset.mem_biUnion.mp ha with ⟨b, hb, hab⟩
        rw [List.mem_toFinset, mem_forestAdj] at hab
        have hbf : isForestAt s b = true := iter_all_forest s p hp k b hb
        have haf : isForestAt s a = true := hab.2
        have hbg : onGrid b := isForestAt_onGrid s b hgrid hbf
        have hba : b ∈ get_adjacent_positions a := adjacent_symm b a hbg hab.1
        have hbFa : b ∈ get_forest_group a s :=
          group_closed s a haf a (mem_group_self s a haf) b
            ((mem_forestAdj s a b).mpr ⟨hba, hbf⟩)
        have hFb_sub : get_forest_group b s ⊆ get_forest_group a s :=
          group_least s b hbf _ hbFa (group_closed s a haf)
        exact hFb_sub (ih b hb)
  have hpq : p ∈ get_forest_group q s := by
    refine haux 82 q ?_
    rw [← get_forest_group_eq_iter s p hp]
    exact hq
  have h2 : get_forest_group p s ⊆ get_forest_group q s :=
    group_least s p hp _ hpq (group_closed s q hqf)
  exact Finset.Subset.antisymm h1 h2

theorem calculate_forest_points_formula (p : Pos) (s : SaveState)
    (hn : 1 < (get_forest_group p s).card) :
    calculate_forest_points p s =
      (((((get_forest_group p s).card - 1) * 2) / (get_forest_group p s).card +
        if ((get_forest_group p s).sort posLe).indexOf p <
            (((get_forest_group p s).card - 1) * 2) % (get_forest_group p s).card
          then 1 else 0 : ℕ) : ℤ) := by
  unfold calculate_forest_points
  dsimp only
  rw [if_neg (by omega)]
  split_ifs <;> simp


theorem posBEq_beq_eq (a b : Pos) :
    (@BEq.beq Pos instBEqProd a b) = decide (a = b) := by
  rw [Bool.eq_iff_iff]
  simp

theorem posBEq_eq : (instBEqProd : BEq Pos) = instBEqOfDecidableEq :=
  congrArg BEq.mk (funext fun a => funext fun b => posBEq_beq_eq a b)

theorem indexOf_inst_bridge (a : Pos) (l : List Pos) :
    @List.indexOf Pos instBEqProd a l = @List.indexOf Pos instBEqOfDecidableEq a l := by
  rw [posBEq_eq]

/-- C7: a placed forest tile in a singleton group scores 0; in a group of
size `n > 1` every member scores `floor(2*(n-1)/n)` plus one extra point when
its index in the lexicographically sorted group is below `(2*(n-1)) mod n`;
consequently the member scores of such a group sum to exactly `2*(n-1)`. -/
theorem c7_forest_group_scoring (s : SaveState) (p : Pos)
    (hgrid : ∀ t ∈ s.placed_tiles, onGrid t.tile_position)
    (hp : isForestAt s p = true) :
    ((get_forest_group p s).card = 1 → calculate_forest_points p s = 0) ∧
    (1 < (get_forest_group p s).card →
      ∀ q ∈ get_forest_group p s,
        calculate_forest_points q s =
          (((2 * ((get_forest_group p s).card - 1)) / (get_forest_group p s).card +
            if ((get_forest_group p s).sort posLe).indexOf q <
                (2 * ((get_forest_group p s).card - 1)) % (get_forest_group p s).card
              then 1 else 0 : ℕ) : ℤ)) ∧
    (1 < (get_forest_group p s).card →
      ∑ q ∈ get_forest_group p s, calculate_forest_points q s =
        ((2 * ((get_forest_group p s).card - 1) : ℕ) : ℤ)) := by
  have hmember : 1 < (get_forest_group p s).card →
      ∀ q ∈ get_forest_group p s,
        calculate_forest_points q s =
          (((2 * ((get_forest_group p s).card - 1)) / (get_forest_group p s).card +
            if ((get_forest_group p s).sort posLe).indexOf q <
                (2 * ((get_forest_group p s).card - 1)) % (get_forest_group p s).card
              then 1 else 0 : ℕ) : ℤ) := by
    intro hn q hq
    have hinv := forest_group_invariant s hgrid p q hp hq
    have hq_formula := calculate_forest_points_formula q s (by rw [hinv]; exact hn)
    rw [hq_formula, hinv, Nat.mul_comm ((get_forest_group p s).card - 1) 2]
  refine ⟨?_, hmember, ?_⟩
  · intro h1
    unfold calculate_forest_points
    dsimp only
    rw [if_pos (by omega)]
  · intro hn
    rw [Finset.sum_congr rfl (hmember hn)]
    have hn0 : 0 < (get_forest_group p s).card := by omega
    have hlen : ((get_forest_group p s).sort posLe).length = (get_forest_group p s).card :=
      Finset.length_sort _
    have hnodup : ((get_forest_group p s).sort posLe).Nodup := Finset.sort_nodup _ _
    have hmeml : ∀ a : Pos, a ∈ (get_forest_group p s).sort posLe ↔
        a ∈ get_forest_group p s := fun a => Finset.mem_sort _
    have hbij : ∑ q ∈ get_forest_group p s,
          (((2 * ((get_forest_group p s).card - 1)) / (get_forest_group p s).card +
            if ((get_forest_group p s).sort posLe).indexOf q <
                (2 * ((get_forest_group p s).card - 1)) % (get_forest_group p s).card
              then 1 else 0 : ℕ) : ℤ) =
        ∑ k ∈ Finset.range (get_forest_group p s).card,
          (((2 * ((get_forest_group p s).card - 1)) / (get_forest_group p s).card +
            if k < (2 * ((get_forest_group p s).card - 1)) % (get_forest_group p s).card
              then 1 else 0 : ℕ) : ℤ) := by
      refine Finset.sum_nbij' (fun q => ((get_forest_group p s).sort posLe).indexOf q)
        (fun k => ((get_forest_group p s).sort posLe).getD k p) ?_ ?_ ?_ ?_ ?_
      · intro a ha
        dsimp only
        simp only [indexOf_inst_bridge]
        rw [Finset.mem_range, ← hlen]
        exact List.indexOf_lt_length.mpr ((hmeml a).mpr ha)
      · intro k hk
        dsimp only
        rw [Finset.mem_range] at hk
        rw [List.getD_eq_get _ _ (show k < ((get_forest_group p s).sort posLe).length by omega)]
        exact (hmeml _).mp (List.get_mem _ _ _)
      · intro a ha
        dsimp only
        simp only [indexOf_inst_bridge]
        have hmem : a ∈ (get_forest_group p s).sort posLe := (hmeml a).mpr ha
        have hidx : @List.indexOf Pos instBEqOfDecidableEq a ((get_forest_group p s).sort posLe) <
            ((get_forest_group p s).sort posLe).length := List.indexOf_lt_length.mpr hmem
        rw [List.getD_eq_get _ _ hidx]
        exact List.indexOf_get hidx
      · intro k hk
        dsimp only
        simp only [indexOf_inst_bridge]
        rw [Finset.mem_range] at hk
        have hklen : k < ((get_forest_group p s).sort posLe).length := by omega
        rw [List.getD_eq_get _ _ hklen]
        have hmem : ((get_forest_group p s).sort posLe).get ⟨k, hklen⟩ ∈
            (get_forest_group p s).sort posLe := List.get_mem _ _ _
        have hidx : @List.indexOf Pos instBEqOfDecidableEq
            (((get_forest_group p s).sort posLe).get ⟨k, hklen⟩)
            ((get_forest_group p s).sort posLe) <
            ((get_forest_group p s).sort posLe).length := List.indexOf_lt_length.mpr hmem
        have hget : ((get_forest_group p s).sort posLe).get ⟨_, hidx⟩ =
            ((get_forest_group p s).sort posLe).get ⟨k, hklen⟩ := List.indexOf_get hidx
        have hfin := (List.Nodup.get_inj_iff hnodup).mp hget
        exact congrArg Fin.val hfin
      · intro a _
        rfl
    rw [hbij]
    have hsplit : ∀ k : ℕ,
        (((2 * ((get_forest_group p s).card - 1)) / (get_forest_group p s).card +
          if k < (2 * ((get_forest_group p s).card - 1)) % (get_forest_group p s).card
            then 1 else 0 : ℕ) : ℤ) =
        (((2 * ((get_forest_group p s).card - 1)) / (get_forest_group p s).card : ℕ) : ℤ) +
          (if k < (2 * ((get_forest_group p s).card - 1)) % (get_forest_group p s).card
            then (1 : ℤ) else 0) := by
      intro k
      split_ifs <;> push_cast <;> ring
    rw [Finset.sum_congr rfl fun k _ => hsplit k]
    rw [Finset.sum_add_distrib, Finset.sum_const, Finset.card_range]
    have hite : ∑ k ∈ Finset.range (get_forest_group p s).card,
        (if k < (2 * ((get_forest_group p s).card - 1)) % (get_forest_group p s).card
          then (1 : ℤ) else 0) =
        (((2 * ((get_forest_group p s).card - 1)) % (get_forest_group p s).card : ℕ) : ℤ) := by
      have hr_lt : (2 * ((get_forest_group p s).card - 1)) % (get_forest_group p s).card <
          (get_forest_group p s).card := Nat.mod_lt _ hn0
      have hcount : ∑ k ∈ Finset.range (get_forest_group p s).card,
          (if k < (2 * ((get_forest_group p s).card - 1)) % (get_forest_group p s).card
            then (1 : ℤ) else 0) =
          ((Finset.range (get_forest_group p s).card).filter
            (· < (2 * ((get_forest_group p s).card - 1)) % (get_forest_group p s).card)).card := by
        simp [Finset.sum_ite_eq]
      have hfil : (Finset.range (get_forest_group p s).card).filter
          (· < (2 * ((get_forest_group p s).card - 1)) % (get_forest_group p s).card) =
          Finset.range ((2 * ((get_forest_group p s).card - 1)) % (get_forest_group p s).card) := by
        ext k
        simp only [Finset.mem_filter, Finset.mem_range]
        omega
      rw [hcount, hfil, Finset.card_range]
    rw [hite]
    have hNat : (get_forest_group p s).card *
        ((2 * ((get_forest_group p s).card - 1)) / (get_forest_group p s).card) +
        (2 * ((get_forest_group p s).card - 1)) % (get_forest_group p s).card =
        2 * ((get_forest_group p s).card - 1) :=
      Nat.div_add_mod _ _
    rw [nsmul_eq_mul]
    exact_mod_cast congrArg (Nat.cast (R := ℤ)) hNat

/-- A finished game with a 3-tile forest column at `(0,0)..(0,2)` plus an
isolated forest at `(5,5)`. -/
def forestState : SaveState :=
  { current_turn := 30, choice_history := [], game_id := "g", created_at := "t",
    placed_tiles := [⟨⟨"forest", "cluster", 1⟩, (0, 0)⟩, ⟨⟨"forest", "cluster", 1⟩, (0, 1)⟩,
      ⟨⟨"forest", "cluster", 1⟩, (0, 2)⟩, ⟨⟨"forest", "cluster", 1⟩, (5, 5)⟩],
    border_lines := [], islands := [] }

/-- C7 (witness): on the concrete state, the group of three forests at
`(0,0)..(0,2)` has its member scores summing to `2*(3-1) = 4`, and the
isolated forest at `(5,5)` scores 0. -/
theorem c7_forest_group_scoring_witness :
    (∑ q ∈ get_forest_group (0, 0) forestState, calculate_forest_points q forestState =
      ((2 * ((get_forest_group (0, 0) forestState).card - 1) : ℕ) : ℤ)) ∧
    calculate_forest_points (5, 5) forestState = 0 :=
  ⟨(c7_forest_group_scoring forestState (0, 0) (by decide) (by decide)).2.2 (by decide),
   (c7_forest_group_scoring forestState (5, 5) (by decide) (by decide)).1 (by decide)⟩
